import Mathlib

/-!
Verification development for the Orderbook Depth 3D Visualizer core:
a shallow embedding of `src/lib/pressure-analysis.ts` and
`src/services/multiVenueService.ts` over exact rationals, together with
theorems settling the specification claims about them.

JavaScript `number` arithmetic is embedded as `ℚ`; the formulas of the
source are translated literally (`1.3` becomes `13/10`, and so on).
`Math.round` and `Number.toFixed` both round to the nearest value at the
given precision with ties taken upward, which `jsRound` captures exactly
for the positive values arising here.
-/

namespace Orderbook

/-- Side of a pressure zone, the `'support' | 'resistance'` union type of
`src/types/orderbook.ts`. -/
inductive ZoneType where
  | support
  | resistance
deriving DecidableEq, Repr

/-- One price level of an order book, `OrderBookLevel` in
`src/types/orderbook.ts`. The `timestamp` field (set to `Date.now()` by the
source) is carried along but never read by the analysis code. -/
structure OrderBookLevel where
  price : ℚ
  quantity : ℚ
  total : ℚ
  timestamp : ℕ
deriving DecidableEq, Repr

/-- A full snapshot of an order book, `OrderBookData` in
`src/types/orderbook.ts`. -/
structure OrderBookData where
  bids : List OrderBookLevel
  asks : List OrderBookLevel
  symbol : String
  venue : String
  timestamp : ℕ
deriving DecidableEq, Repr

/-- A detected pressure zone, `PressureZone` in `src/types/orderbook.ts`. -/
structure PressureZone where
  price : ℚ
  intensity : ℚ
  type : ZoneType
  volume : ℚ
deriving DecidableEq, Repr

/-- Spread tightness classification returned by `getSpreadAnalysis`. -/
inductive Tightness where
  | tight
  | normal
  | wide
deriving DecidableEq, Repr

/-- Result record of `PressureZoneAnalyzer.getSpreadAnalysis`. -/
structure SpreadAnalysis where
  spread : ℚ
  spreadPercent : ℚ
  midPrice : ℚ
  tightness : Tightness
deriving DecidableEq, Repr

/-- JavaScript rounding of `x` to `d` decimal places: nearest value, ties
upward. This is `Math.round (x * 10^d) / 10^d` and also what
`Number.toFixed d` computes for the positive magnitudes in this program. -/
def jsRound (d : ℕ) (x : ℚ) : ℚ :=
  ((⌊x * (10 ^ d : ℚ) + 1 / 2⌋ : ℤ) : ℚ) / (10 ^ d : ℚ)

/-- Comparator relation of `zones.sort((a, b) => a.price - b.price)`:
ascending price over pressure zones. -/
abbrev zonePriceLE (a b : PressureZone) : Prop := a.price ≤ b.price

/-- Comparator relation of `zones.sort((a, b) => b.intensity - a.intensity)`:
descending intensity over pressure zones. -/
abbrev zoneIntensityGE (a b : PressureZone) : Prop := b.intensity ≤ a.intensity

/-- Comparator relation of `bids.sort((a, b) => b.price - a.price)`:
descending price over levels. -/
abbrev levelPriceGE (a b : OrderBookLevel) : Prop := b.price ≤ a.price

/-- Comparator relation of `asks.sort((a, b) => a.price - b.price)`:
ascending price over levels. -/
abbrev levelPriceLE (a b : OrderBookLevel) : Prop := a.price ≤ b.price

instance : IsTotal PressureZone zonePriceLE := ⟨fun a b => le_total a.price b.price⟩

instance : IsTrans PressureZone zonePriceLE := ⟨fun _ _ _ h h2 => le_trans h h2⟩

instance : IsTotal PressureZone zoneIntensityGE := ⟨fun a b => le_total b.intensity a.intensity⟩

instance : IsTrans PressureZone zoneIntensityGE := ⟨fun _ _ _ h h2 => le_trans h2 h⟩

instance : IsTotal OrderBookLevel levelPriceGE := ⟨fun a b => le_total b.price a.price⟩

instance : IsTrans OrderBookLevel levelPriceGE := ⟨fun _ _ _ h h2 => le_trans h2 h⟩

instance : IsTotal OrderBookLevel levelPriceLE := ⟨fun a b => le_total a.price b.price⟩

instance : IsTrans OrderBookLevel levelPriceLE := ⟨fun _ _ _ h h2 => le_trans h h2⟩

/-- JavaScript `Map.set(k, (get(k) || 0) + q)` on an insertion-ordered map of
price to accumulated quantity, as used by `combineOrderBookLevels`. -/
def upsertQty : List (ℚ × ℚ) → ℚ → ℚ → List (ℚ × ℚ)
  | [], p, q => [(p, q)]
  | (pk, qk) :: t, p, q =>
    if pk = p then (pk, qk + q) :: t else (pk, qk) :: upsertQty t p q

/-- Accumulation loop of `combineOrderBookLevels` for one side: every level of
every snapshot is added into the price map under its price rounded to two
decimal places. -/
def accumulateSide (side : OrderBookData → List OrderBookLevel)
    (data : List OrderBookData) : List (ℚ × ℚ) :=
  data.foldl
    (fun m d => (side d).foldl (fun m2 lv => upsertQty m2 (jsRound 2 lv.price) lv.quantity) m)
    []

/-- Conversion of one accumulated map entry back into a level, as in the
`Array.from(map.entries()).map(...)` step of `combineOrderBookLevels`; the
source stamps `Date.now()`, embedded as `0` since no analysis reads it. -/
def entryToLevel (pq : ℚ × ℚ) : OrderBookLevel :=
  ⟨pq.1, pq.2, pq.2, 0⟩

/-- Embedding of `PressureZoneAnalyzer.combineOrderBookLevels`
(`src/lib/pressure-analysis.ts`, lines 26 to 64): group all levels of all
snapshots by price rounded to 2 decimals, summing quantities, then sort the
bid side descending and the ask side ascending by price. -/
def combineOrderBookLevels (data : List OrderBookData) :
    List OrderBookLevel × List OrderBookLevel :=
  (List.insertionSort levelPriceGE ((accumulateSide OrderBookData.bids data).map entryToLevel),
   List.insertionSort levelPriceLE ((accumulateSide OrderBookData.asks data).map entryToLevel))

/-- Merge rule of `mergeNearbyZones` (`src/lib/pressure-analysis.ts`, lines
117 to 126): summed volume, volume-weighted price, maximal intensity, the
type of the running zone. -/
def mergeZone (current next : PressureZone) : PressureZone :=
  let totalVolume := current.volume + next.volume
  ⟨(current.price * current.volume + next.price * next.volume) / totalVolume,
   max current.intensity next.intensity, current.type, totalVolume⟩

/-- Merge test of `mergeNearbyZones` (`src/lib/pressure-analysis.ts`, lines
114 to 116): relative price distance at most `CLUSTERING_DISTANCE = 0.001`
and equal zone types. -/
def mergeCond (current next : PressureZone) : Prop :=
  |next.price - current.price| / current.price ≤ 1 / 1000 ∧ current.type = next.type

instance (c n : PressureZone) : Decidable (mergeCond c n) :=
  inferInstanceAs (Decidable (_ ∧ _))

/-- Scan loop of `mergeNearbyZones` (`src/lib/pressure-analysis.ts`, lines
110 to 133): the running zone absorbs the next zone when `mergeCond` holds,
and is otherwise flushed to the output. -/
def mergePass : PressureZone → List PressureZone → List PressureZone
  | current, [] => [current]
  | current, next :: t =>
    if mergeCond current next then mergePass (mergeZone current next) t
    else current :: mergePass next t

/-- Embedding of `PressureZoneAnalyzer.mergeNearbyZones`
(`src/lib/pressure-analysis.ts`, lines 104 to 135): lists of at most one zone
are returned unchanged; otherwise the zones are sorted by ascending price and
merged in a single left-to-right greedy pass. -/
def mergeNearbyZones (zones : List PressureZone) : List PressureZone :=
  if zones.length ≤ 1 then zones
  else
    match List.insertionSort zonePriceLE zones with
    | [] => []
    | z :: rest => mergePass z rest

/-- Embedding of `PressureZoneAnalyzer.findVolumeSpikes`
(`src/lib/pressure-analysis.ts`, lines 66 to 102): fewer than three levels
yield no zones; otherwise each interior index `i` of the loop
`for (let i = 1; i < levels.length - 1; i++)` contributes a zone when its
quantity exceeds `avg * 1.5` and `1.3` times both neighbours and the
intensity `min(quantity / (avg * 3), 1)` reaches `MIN_ZONE_STRENGTH = 0.3`;
the collected zones are passed through `mergeNearbyZones` before being
returned. -/
def findVolumeSpikes (levels : List OrderBookLevel) (ty : ZoneType) : List PressureZone :=
  if levels.length < 3 then []
  else
    let avgVolume := (levels.map OrderBookLevel.quantity).sum / (levels.length : ℚ)
    let threshold := avgVolume * (3 / 2)
    let zones := (List.range' 1 (levels.length - 2)).filterMap (fun i =>
      match levels.get? (i - 1), levels.get? i, levels.get? (i + 1) with
      | some prev, some current, some next =>
        if threshold < current.quantity ∧ prev.quantity * (13 / 10) < current.quantity ∧
            next.quantity * (13 / 10) < current.quantity then
          let intensity := min (current.quantity / (avgVolume * 3)) 1
          if 3 / 10 ≤ intensity then
            some ⟨current.price, intensity, ty, current.quantity⟩
          else none
        else none
      | _, _, _ => none)
    mergeNearbyZones zones

/-- Embedding of `PressureZoneAnalyzer.analyzePressureZones`
(`src/lib/pressure-analysis.ts`, lines 8 to 24): empty input yields no zones;
otherwise the combined bid levels are scanned for support zones, the combined
ask levels for resistance zones, and the concatenation is sorted by
descending intensity. -/
def analyzePressureZones (data : List OrderBookData) : List PressureZone :=
  if data.length = 0 then []
  else
    let allLevels := combineOrderBookLevels data
    let zones := findVolumeSpikes allLevels.1 ZoneType.support ++
      findVolumeSpikes allLevels.2 ZoneType.resistance
    List.insertionSort zoneIntensityGE zones

/-- Total bid volume of a snapshot, the first `reduce` of
`calculateImbalance`. -/
def totalBidVolume (ob : OrderBookData) : ℚ :=
  (ob.bids.map OrderBookLevel.quantity).sum

/-- Total ask volume of a snapshot, the second `reduce` of
`calculateImbalance`. -/
def totalAskVolume (ob : OrderBookData) : ℚ :=
  (ob.asks.map OrderBookLevel.quantity).sum

/-- Embedding of `PressureZoneAnalyzer.calculateImbalance`
(`src/lib/pressure-analysis.ts`, lines 137 to 146). -/
def calculateImbalance (ob : OrderBookData) : ℚ :=
  let totalVolume := totalBidVolume ob + totalAskVolume ob
  if totalVolume = 0 then 0
  else (totalBidVolume ob - totalAskVolume ob) / totalVolume

/-- Embedding of `PressureZoneAnalyzer.getSpreadAnalysis`
(`src/lib/pressure-analysis.ts`, lines 148 to 169). -/
def getSpreadAnalysis (ob : OrderBookData) : SpreadAnalysis :=
  match ob.bids, ob.asks with
  | bestBidLevel :: _, bestAskLevel :: _ =>
    let bestBid := bestBidLevel.price
    let bestAsk := bestAskLevel.price
    let spread := bestAsk - bestBid
    let midPrice := (bestBid + bestAsk) / 2
    let spreadPercent := spread / midPrice * 100
    let tightness :=
      if spreadPercent < 1 / 20 then Tightness.tight
      else if 1 / 5 < spreadPercent then Tightness.wide
      else Tightness.normal
    ⟨spread, spreadPercent, midPrice, tightness⟩
  | _, _ => ⟨0, 0, 0, Tightness.normal⟩

/-!
Embedding of `src/services/multiVenueService.ts`.

`generateMockOrderBook` consumes `Math.random()` draws in a fixed textual
order; the draw stream is embedded as a function `rand : ℕ → ℚ` indexed by
draw position. The factor `Math.exp(-i * 0.2)` in the quantity formula is a
transcendental function of the level index only, embedded as an explicit
parameter `expd : ℕ → ℚ`; no claim here depends on its values.
-/

/-- Number of draws consumed before the per-level loop: one for `basePrice`
when the symbol contains `BTC` (the conditional only evaluates
`Math.random()` in its true branch), and none otherwise. -/
def baseDraws (isBTC : Bool) : ℕ := if isBTC then 1 else 0

/-- Level construction loop shared by both sides of the mock book: each
price and quantity pair becomes a level carrying the rounded running
total. -/
def withRunningTotals : ℚ → List (ℚ × ℚ) → List OrderBookLevel
  | _, [] => []
  | acc, (p, q) :: t => ⟨p, q, jsRound 4 (acc + q), 0⟩ :: withRunningTotals (acc + q) t

/-- Embedding of `generateMockOrderBook`
(`src/services/multiVenueService.ts`, lines 12 to 56). `isBTC` is
`symbol.includes('BTC')`; `rand n` is the value of the `n`-th `Math.random()`
call; `expd i` is `Math.exp(-i * 0.2)`. Each of the 20 levels draws, in
order, its bid price jitter, ask price jitter, bid quantity and ask
quantity; prices are rounded to 2 and quantities and running totals to 4
decimal places; finally bids are sorted descending and asks ascending by
price. -/
def generateMockOrderBook (isBTC : Bool) (rand expd : ℕ → ℚ)
    (symbol venue : String) : OrderBookData :=
  let k0 := baseDraws isBTC
  let basePrice : ℚ := if isBTC then 45000 + rand 0 * 10000 else 50000
  let spread := 2 + rand k0 * 8
  let levels := 20
  let bidPair := fun i : ℕ =>
    (jsRound 2 (basePrice - spread / 2 - (i : ℚ) * (2 + rand (k0 + 1 + 4 * i) * 3)),
     jsRound 4 (rand (k0 + 3 + 4 * i) * 3 + 1 / 20 * expd i))
  let askPair := fun i : ℕ =>
    (jsRound 2 (basePrice + spread / 2 + (i : ℚ) * (2 + rand (k0 + 2 + 4 * i) * 3)),
     jsRound 4 (rand (k0 + 4 + 4 * i) * 3 + 1 / 20 * expd i))
  let bids := withRunningTotals 0 ((List.range levels).map bidPair)
  let asks := withRunningTotals 0 ((List.range levels).map askPair)
  ⟨List.insertionSort levelPriceGE bids, List.insertionSort levelPriceLE asks,
   symbol, venue ++ " (Demo)", 0⟩

/-- Raw depth payload handed to `parseBinanceData` after the JSON envelope
checks (stream unwrapping and the `Array.isArray` tests); each side is a
list of `[priceStr, quantityStr]` pairs, a component being `none` when
`parseFloat` on it returns `NaN`. -/
structure RawDepth where
  bids : List (Option ℚ × Option ℚ)
  asks : List (Option ℚ × Option ℚ)
deriving DecidableEq, Repr

/-- Parsing loop of `parseBinanceData` for one side
(`src/services/multiVenueService.ts`, lines 190 to 228): non-numeric or
non-positive pairs are skipped, valid pairs are kept in payload order with a
running total. -/
def parseSide : ℚ → List (Option ℚ × Option ℚ) → List OrderBookLevel
  | _, [] => []
  | acc, (pOpt, qOpt) :: t =>
    match pOpt, qOpt with
    | some p, some q =>
      if p ≤ 0 ∨ q ≤ 0 then parseSide acc t
      else ⟨p, q, acc + q, 0⟩ :: parseSide (acc + q) t
    | _, _ => parseSide acc t

/-- Embedding of `parseBinanceData`
(`src/services/multiVenueService.ts`, lines 155 to 241): an empty payload
yields `none`, as does a payload with no valid level on either side;
otherwise the parsed sides are returned in payload order. -/
def parseBinanceData (raw : RawDepth) (symbol venue : String) :
    Option OrderBookData :=
  if raw.bids = [] ∧ raw.asks = [] then none
  else
    let bids := parseSide 0 raw.bids
    let asks := parseSide 0 raw.asks
    if bids = [] ∧ asks = [] then none
    else some ⟨bids, asks, symbol, venue, 0⟩

/-- Connection events visible to the reconnect logic of one channel key:
`opened` is the `ws.onopen` callback, `abnormalClose` an `ws.onclose` with
code other than 1000, which invokes `handleReconnect`. -/
inductive ConnEvent where
  | opened
  | abnormalClose
deriving DecidableEq, Repr

/-- Action taken by `handleReconnect` for one close: schedule one retry
`setTimeout` with the given delay in milliseconds, or switch the channel to
the synthetic data feed. -/
inductive ReconnectAction where
  | retry (delayMs : ℕ)
  | degradeToMock
deriving DecidableEq, Repr

/-- Single-step semantics of the per-key reconnect attempt counter
(`src/services/multiVenueService.ts`): `ws.onopen` (lines 103 to 107) sets
the count to 0 and schedules nothing; `handleReconnect` (lines 243 to 270)
reads the count, and below `maxReconnectAttempts = 5` increments it and
schedules one retry after `min(1000 * 2^attempts, 30000)` milliseconds,
otherwise starts the mock data feed. -/
def reconnectStep : ConnEvent → ℕ → ℕ × Option ReconnectAction
  | ConnEvent.opened, _ => (0, none)
  | ConnEvent.abnormalClose, attempts =>
    if attempts < 5 then
      (attempts + 1, some (ReconnectAction.retry (min (1000 * 2 ^ attempts) 30000)))
    else (attempts, some ReconnectAction.degradeToMock)

/-- Run of the reconnect state machine over a sequence of connection events,
collecting the emitted actions in order. -/
def runConnEvents : ℕ → List ConnEvent → ℕ × List ReconnectAction
  | n, [] => (n, [])
  | n, e :: t =>
    let step := reconnectStep e n
    let rest := runConnEvents step.1 t
    (rest.1, step.2.toList ++ rest.2)

/-- Test for a scheduled real reconnect attempt. -/
def isRetry : ReconnectAction → Bool
  | ReconnectAction.retry _ => true
  | ReconnectAction.degradeToMock => false

/-- Test for a switch to the synthetic data feed. -/
def isMock : ReconnectAction → Bool
  | ReconnectAction.retry _ => false
  | ReconnectAction.degradeToMock => true

/-- Registry events for the subscriber-count analysis: `subscribe k cb`
is a call of `subscribe` for channel key `k` registering callback `cb`, and
`unsubInvoke k cb` is an invocation of the unsubscribe handle that such a
call returned. Keys and callbacks are embedded as naturals. -/
inductive RegEvent where
  | subscribe (k cb : ℕ)
  | unsubInvoke (k cb : ℕ)
deriving DecidableEq, Repr

/-- Insertion into a JavaScript `Set` kept in insertion order:
`Set.add` appends only when the element is absent. -/
def setAdd (cb : ℕ) : List ℕ → List ℕ
  | [] => [cb]
  | c :: t => if c = cb then c :: t else c :: setAdd cb t

/-- Subscriber state of the service: for each key, the insertion-ordered
element list of `subscribers.get(key)`, a missing key being the empty
list. -/
def SubscriberState : Type := ℕ → List ℕ

/-- One registry event applied to the subscriber state
(`src/services/multiVenueService.ts`, lines 287 to 313): `subscribe` adds
the callback to the `Set` of its key; the returned unsubscribe handle
deletes the callback from that `Set` and, when the `Set` became empty,
`disconnect` (lines 322 to 340) removes the key entirely, which leaves the
same empty element list. -/
def regStep (s : SubscriberState) : RegEvent → SubscriberState
  | RegEvent.subscribe k cb => fun k2 => if k2 = k then setAdd cb (s k) else s k2
  | RegEvent.unsubInvoke k cb => fun k2 => if k2 = k then (s k).erase cb else s k2

/-- Subscriber state after a trace of registry events, starting from the
empty registry. -/
def runRegistry (trace : List RegEvent) : SubscriberState :=
  trace.foldl regStep (fun _ => [])

/-- Number of unsubscribe handles issued for key `k` by a trace: one per
`subscribe` call for `k`. -/
def handlesIssued (trace : List RegEvent) (k : ℕ) : ℕ :=
  (trace.filter (fun e => match e with
    | RegEvent.subscribe k2 _ => k2 = k
    | _ => false)).length

/-- Callback of a subscribe event, if any. -/
def subscribedCb (k : ℕ) : RegEvent → Option ℕ
  | RegEvent.subscribe k2 cb => if k2 = k then some cb else none
  | _ => none

/-- Callbacks subscribed for `k` somewhere in the trace whose handle was
never invoked; with pairwise-distinct callbacks this counts exactly the
issued-but-not-invoked unsubscribe handles for `k`. -/
def outstandingHandles (trace : List RegEvent) (k : ℕ) : List ℕ :=
  (trace.filterMap (subscribedCb k)).filter
    (fun cb => ¬ RegEvent.unsubInvoke k cb ∈ trace)

/-- Timer-relevant state of one service instance: the keys present in
`wsConnections` holding a live socket, the keys holding a mock-feed interval
under `key + "-interval"`, and the pending reconnect `setTimeout`s created
by `handleReconnect`, whose ids the source discards. Keys are naturals. -/
structure TimerState where
  wsKeys : List ℕ
  intervalKeys : List ℕ
  pendingBackoff : List ℕ
  subscribers : List (ℕ × List ℕ)
deriving DecidableEq, Repr

/-- Backoff scheduling of `handleReconnect`
(`src/services/multiVenueService.ts`, lines 252 to 265): the retry
`setTimeout` is created and its id is discarded, so the runtime gains a
pending backoff timer that no field of the service references. -/
def scheduleBackoff (k : ℕ) (s : TimerState) : TimerState :=
  { s with pendingBackoff := k :: s.pendingBackoff }

/-- Embedding of `disconnect` (`src/services/multiVenueService.ts`, lines
322 to 340): close and drop the socket of the key, clear and drop the
mock-feed interval stored under `key + "-interval"`, and delete the
subscriber set; nothing touches the pending backoff timers because the
source kept no reference to them. -/
def disconnectKey (k : ℕ) (s : TimerState) : TimerState :=
  { wsKeys := s.wsKeys.erase k
    intervalKeys := s.intervalKeys.erase k
    pendingBackoff := s.pendingBackoff
    subscribers := s.subscribers.filter (fun p => p.1 ≠ k) }

/-- Subscriber list of a key in the timer model. -/
def subsOf (s : TimerState) (k : ℕ) : List ℕ :=
  ((s.subscribers.find? (fun p => p.1 = k)).map Prod.snd).getD []

/-- Invocation of an unsubscribe handle in the timer model
(`src/services/multiVenueService.ts`, lines 307 to 312): delete the callback
from the subscriber set of the key and call `disconnect` when the set became
empty. -/
def unsubscribeHandle (k cb : ℕ) (s : TimerState) : TimerState :=
  let remaining := (subsOf s k).erase cb
  let s2 : TimerState :=
    { s with subscribers := s.subscribers.map (fun p => if p.1 = k then (p.1, remaining) else p) }
  if remaining = [] then disconnectKey k s2 else s2

/-!
Spec-side definitions and the claim theorems.
-/

/-- Modelled from the spec: tightness classification of a spread
percentage, `Tight` below `0.05`, `Wide` above `0.2`, otherwise
`Normal`. -/
def specTightness (spreadPercent : ℚ) : Tightness :=
  if spreadPercent < 1 / 20 then Tightness.tight
  else if 1 / 5 < spreadPercent then Tightness.wide
  else Tightness.normal

/-- Level with equal quantity and total and zero timestamp, for concrete
instances in witnesses. -/
def mkLevel (p q : ℚ) : OrderBookLevel := ⟨p, q, q, 0⟩

/-- Claim C8: with an empty side, `getSpreadAnalysis` returns zero spread,
percent and mid price with `Normal` tightness; with both sides populated it
returns `spread = bestAsk - bestBid`, `midPrice = (bestAsk + bestBid) / 2`,
`spreadPercent = spread / midPrice * 100`, and the tightness classification
`Tight` below `0.05` percent, `Wide` above `0.2`, else `Normal`. -/
theorem spreadAnalysis_spec (ob : OrderBookData) :
    ((ob.bids = [] ∨ ob.asks = []) →
      getSpreadAnalysis ob = ⟨0, 0, 0, Tightness.normal⟩) ∧
    (∀ b bs a as2, ob.bids = b :: bs → ob.asks = a :: as2 →
      getSpreadAnalysis ob =
        ⟨a.price - b.price,
         (a.price - b.price) / ((a.price + b.price) / 2) * 100,
         (a.price + b.price) / 2,
         specTightness ((a.price - b.price) / ((a.price + b.price) / 2) * 100)⟩) := by
  obtain ⟨bids, asks, sym, ven, ts⟩ := ob
  constructor
  · rintro (h | h)
    · have h2 : bids = [] := h
      subst h2
      cases asks <;> rfl
    · have h2 : asks = [] := h
      subst h2
      cases bids <;> rfl
  · intro b bs a as2 hb ha
    have hb2 : bids = b :: bs := hb
    have ha2 : asks = a :: as2 := ha
    subst hb2
    subst ha2
    have hc : b.price + a.price = a.price + b.price := add_comm _ _
    simp [getSpreadAnalysis, specTightness, hc]

/-- Witness for C8 at concrete snapshots: a bid-empty book yields the zero
summary, and best bid 100 against best ask 101 yields spread 1, mid 100.5
and a wide classification. -/
theorem spreadAnalysis_spec_witness :
    getSpreadAnalysis ⟨[], [mkLevel 101 1], "s", "v", 0⟩ = ⟨0, 0, 0, Tightness.normal⟩ ∧
    getSpreadAnalysis ⟨[mkLevel 100 1], [mkLevel 101 1], "s", "v", 0⟩ =
      ⟨(101 : ℚ) - 100, ((101 : ℚ) - 100) / (((101 : ℚ) + 100) / 2) * 100,
       ((101 : ℚ) + 100) / 2,
       specTightness (((101 : ℚ) - 100) / (((101 : ℚ) + 100) / 2) * 100)⟩ := by
  constructor
  · exact (spreadAnalysis_spec _).1 (Or.inl rfl)
  · exact (spreadAnalysis_spec _).2 (mkLevel 100 1) [] (mkLevel 101 1) [] rfl rfl

/-- Claim C9: `calculateImbalance` returns exactly 0 at total volume 0 and
the normalized difference otherwise, and with nonnegative level quantities
the result lies in the closed interval from -1 to 1. -/
theorem calculateImbalance_spec (ob : OrderBookData) :
    (totalBidVolume ob + totalAskVolume ob = 0 → calculateImbalance ob = 0) ∧
    (totalBidVolume ob + totalAskVolume ob ≠ 0 →
      calculateImbalance ob =
        (totalBidVolume ob - totalAskVolume ob) / (totalBidVolume ob + totalAskVolume ob)) ∧
    ((∀ l ∈ ob.bids, 0 ≤ l.quantity) → (∀ l ∈ ob.asks, 0 ≤ l.quantity) →
      -1 ≤ calculateImbalance ob ∧ calculateImbalance ob ≤ 1) := by
  refine ⟨fun h => by simp [calculateImbalance, h], fun h => by simp [calculateImbalance, h], ?_⟩
  intro hb ha
  have hB : 0 ≤ totalBidVolume ob := by
    refine List.sum_nonneg ?_
    intro x hx
    obtain ⟨l, hl, rfl⟩ := List.mem_map.mp hx
    exact hb l hl
  have hA : 0 ≤ totalAskVolume ob := by
    refine List.sum_nonneg ?_
    intro x hx
    obtain ⟨l, hl, rfl⟩ := List.mem_map.mp hx
    exact ha l hl
  by_cases h : totalBidVolume ob + totalAskVolume ob = 0
  · simp [calculateImbalance, h]
  · have hpos : 0 < totalBidVolume ob + totalAskVolume ob :=
      lt_of_le_of_ne (by linarith) (Ne.symm h)
    rw [show calculateImbalance ob =
        (totalBidVolume ob - totalAskVolume ob) / (totalBidVolume ob + totalAskVolume ob) by
      simp [calculateImbalance, h]]
    constructor
    · rw [le_div_iff₀ hpos]
      linarith
    · rw [div_le_one hpos]
      linarith

/-- Modelled from the spec: the kept candidate spike zones of one side, one
zone for each interior index of the level list whose quantity exceeds the
threshold `avg * 1.5` and `1.3` times the quantities of both neighbours,
carrying the level price, the clamped intensity `min(q / (avg * 3), 1)`
(kept only when at least `0.3`), the given side, and the level quantity as
volume. -/
def specKeptZones (levels : List OrderBookLevel) (ty : ZoneType) : List PressureZone :=
  let avg := (levels.map OrderBookLevel.quantity).sum / (levels.length : ℚ)
  let threshold := avg * (3 / 2)
  (List.range levels.length).filterMap (fun i =>
    match levels.get? (i - 1), levels.get? i, levels.get? (i + 1) with
    | some prev, some current, some next =>
      if 0 < i ∧ i + 1 < levels.length ∧ threshold < current.quantity ∧
          prev.quantity * (13 / 10) < current.quantity ∧
          next.quantity * (13 / 10) < current.quantity ∧
          3 / 10 ≤ min (current.quantity / (avg * 3)) 1 then
        some ⟨current.price, min (current.quantity / (avg * 3)) 1, ty, current.quantity⟩
      else none
    | _, _, _ => none)

/-- Interior restriction of an index scan: a position-indexed `filterMap`
over `range n` that vanishes at index 0 and at indices reaching the last
position equals the scan over the interior indices `1` to `n - 2`. -/
theorem filterMap_range_interior {α : Type} (n : ℕ) (hn : 3 ≤ n) (f : ℕ → Option α)
    (h0 : f 0 = none) (hlast : ∀ i, n ≤ i + 1 → f i = none) :
    (List.range n).filterMap f = (List.range' 1 (n - 2)).filterMap f := by
  obtain ⟨m, rfl⟩ : ∃ m, n = m + 3 := ⟨n - 3, by omega⟩
  rw [List.range_eq_range', show m + 3 = (m + 2) + 1 from rfl, List.range'_succ,
    show m + 2 = (m + 1) + 1 from rfl, List.range'_1_concat, List.filterMap_cons,
    h0, List.filterMap_append]
  have hred : m + 1 + 1 + 1 - 2 = m + 1 := by omega
  rw [hred]
  simp only [List.filterMap_cons, List.filterMap_nil,
    hlast (0 + 1 + (m + 1)) (by omega), List.append_nil]


/-- Claim C1 as amended: with fewer than three levels `findVolumeSpikes`
returns no zones, and otherwise it returns the kept candidate spike zones
passed through `mergeNearbyZones`. -/
theorem findVolumeSpikes_spec (levels : List OrderBookLevel) (ty : ZoneType) :
    (levels.length < 3 → findVolumeSpikes levels ty = []) ∧
    (3 ≤ levels.length →
      findVolumeSpikes levels ty = mergeNearbyZones (specKeptZones levels ty)) := by
  constructor
  · intro h
    simp [findVolumeSpikes, h]
  · intro h
    have hnot : ¬ levels.length < 3 := by omega
    simp only [findVolumeSpikes, if_neg hnot, specKeptZones]
    congr 1
    rw [filterMap_range_interior levels.length h _ ?_ ?_]
    · refine (List.filterMap_congr ?_).symm
      intro i hi
      have hmem := List.mem_range'.mp hi
      have h1 : 0 < i := by omega
      have h2 : i + 1 < levels.length := by omega
      cases hp : levels.get? (i - 1) with
      | none => simp only [hp]
      | some prev =>
        cases hc : levels.get? i with
        | none => simp only [hp, hc]
        | some current =>
          cases hx : levels.get? (i + 1) with
          | none => simp only [hp, hc, hx]
          | some next =>
            simp only [hp, hc, hx]
            by_cases hA : (levels.map OrderBookLevel.quantity).sum / (levels.length : ℚ) * (3 / 2) < current.quantity ∧
                prev.quantity * (13 / 10) < current.quantity ∧
                next.quantity * (13 / 10) < current.quantity
            · by_cases hB : (3 : ℚ) / 10 ≤
                  min (current.quantity / ((levels.map OrderBookLevel.quantity).sum / (levels.length : ℚ) * 3)) 1
              · rw [if_pos ⟨h1, h2, hA.1, hA.2.1, hA.2.2, hB⟩, if_pos hA]
                simp only [if_pos hB]
              · rw [if_neg (by tauto), if_pos hA]
                simp only [if_neg hB]
            · rw [if_neg (by tauto), if_neg hA]
    · have h01 : (0 : ℕ) - 1 = 0 := rfl
      rw [h01]
      cases hc : levels.get? 0 with
      | none => simp only [hc]
      | some current =>
        cases hx : levels.get? (0 + 1) with
        | none => simp only [hc, hx]
        | some next =>
          simp only [hc, hx]
          rw [if_neg]
          rintro ⟨hlt, -⟩
          exact absurd hlt (lt_irrefl 0)
    · intro i hi
      have hx : levels.get? (i + 1) = none := List.get?_eq_none.mpr (by omega)
      rw [hx]
      cases hp : levels.get? (i - 1) with
      | none => simp only [hp]
      | some prev =>
        cases hc : levels.get? i with
        | none => simp only [hp, hc]
        | some current => simp only [hp, hc]

/-- Concrete bid levels on which the kept candidates differ from the
returned zones: two interior spikes 0.02 price units apart. -/
def spikeMergeLevels : List OrderBookLevel :=
  [mkLevel (10005 / 100) 1, mkLevel (10004 / 100) 10, mkLevel (10003 / 100) 1,
   mkLevel (10002 / 100) 10, mkLevel (10001 / 100) 1]

/-- Counterexample to C1 as stated: on `spikeMergeLevels` the kept
candidates are two support zones at prices 100.04 and 100.02, but
`findVolumeSpikes` returns the single zone obtained by merging them at the
volume-weighted price 100.03, so its result is not the list of kept
candidates and the returned zone carries no level price. -/
theorem findVolumeSpikes_spec_counterexample :
    findVolumeSpikes spikeMergeLevels ZoneType.support =
      [⟨10003 / 100, 50 / 69, ZoneType.support, 20⟩] ∧
    specKeptZones spikeMergeLevels ZoneType.support =
      [⟨2501 / 25, 50 / 69, ZoneType.support, 10⟩,
       ⟨5001 / 50, 50 / 69, ZoneType.support, 10⟩] := by
  constructor <;>
    norm_num [findVolumeSpikes, specKeptZones, spikeMergeLevels, mkLevel,
      mergeNearbyZones, mergePass, mergeCond, mergeZone, zonePriceLE,
      List.insertionSort, List.orderedInsert, List.range', List.range_succ,
      List.filterMap_cons, min_def, abs_of_nonneg, abs_of_nonpos]

/-- Witness for the amended C1 at concrete inputs: two levels give no
zones, and the three levels of the spec scenario give the merged kept
candidates, a single support zone at price 99 with intensity five
sevenths. -/
theorem findVolumeSpikes_spec_witness :
    findVolumeSpikes [mkLevel 100 1, mkLevel 99 5] ZoneType.support = [] ∧
    findVolumeSpikes [mkLevel 100 1, mkLevel 99 5, mkLevel 98 1] ZoneType.support =
      mergeNearbyZones
        (specKeptZones [mkLevel 100 1, mkLevel 99 5, mkLevel 98 1] ZoneType.support) :=
  ⟨(findVolumeSpikes_spec _ _).1 (by norm_num),
   (findVolumeSpikes_spec _ _).2 (by norm_num)⟩

/-- Retry and mock action counts of a pure close burst: starting from
`attempts = n`, a run of `k` abnormal closes schedules `min k (5 - n)`
retries and starts the mock feed on each of the remaining closes. -/
theorem runConnEvents_replicate_close (k : ℕ) : ∀ n : ℕ,
    (((runConnEvents n (List.replicate k ConnEvent.abnormalClose)).2.filter
        isRetry).length = min k (5 - n)) ∧
    (((runConnEvents n (List.replicate k ConnEvent.abnormalClose)).2.filter
        isMock).length = k - (5 - n)) := by
  induction k with
  | zero => intro n; simp [runConnEvents]
  | succ k ih =>
    intro n
    by_cases h : n < 5
    · have h1 := (ih (n + 1)).1
      have h2 := (ih (n + 1)).2
      simp only [List.replicate_succ, runConnEvents, reconnectStep, if_pos h,
        Option.toList_some, List.singleton_append, List.filter_cons]
      rw [show isRetry (ReconnectAction.retry (min (1000 * 2 ^ n) 30000)) = true from rfl,
        show isMock (ReconnectAction.retry (min (1000 * 2 ^ n) 30000)) = false from rfl]
      simp only [if_true, Bool.false_eq_true, if_false, List.length_cons, h1, h2]
      omega
    · have h1 := (ih n).1
      have h2 := (ih n).2
      simp only [List.replicate_succ, runConnEvents, reconnectStep, if_neg h,
        Option.toList_some, List.singleton_append, List.filter_cons]
      rw [show isRetry ReconnectAction.degradeToMock = false from rfl,
        show isMock ReconnectAction.degradeToMock = true from rfl]
      simp only [if_true, Bool.false_eq_true, if_false, List.length_cons, h1, h2]
      omega

/-- Claim C3: a successful open resets the attempt count of the key to 0; an
abnormal close at attempt count `n < 5` increments the count and schedules
exactly one retry delayed by `min(1000 * 2^n, 30000)` milliseconds; and over
any burst of consecutive failures the channel schedules at most 5 real
reconnect attempts, every further close starting the synthetic feed
instead. -/
theorem reconnect_policy_spec :
    (∀ n, reconnectStep ConnEvent.opened n = (0, none)) ∧
    (∀ n, n < 5 → reconnectStep ConnEvent.abnormalClose n =
      (n + 1, some (ReconnectAction.retry (min (1000 * 2 ^ n) 30000)))) ∧
    (∀ k, ((runConnEvents 0 (List.replicate k ConnEvent.abnormalClose)).2.filter
        isRetry).length = min k 5) ∧
    (∀ k, ((runConnEvents 0 (List.replicate k ConnEvent.abnormalClose)).2.filter
        isMock).length = k - 5) := by
  refine ⟨fun n => rfl, fun n h => by simp [reconnectStep, h], fun k => ?_, fun k => ?_⟩
  · simpa using (runConnEvents_replicate_close k 0).1
  · simpa using (runConnEvents_replicate_close k 0).2

/-- Witness for C3: an open at attempt count 7 resets to 0; a close at
count 3 schedules one retry after 8 seconds; 7 consecutive failures from a
fresh channel schedule exactly 5 retries and 2 synthetic-feed starts. -/
theorem reconnect_policy_spec_witness :
    reconnectStep ConnEvent.opened 7 = (0, none) ∧
    reconnectStep ConnEvent.abnormalClose 3 =
      (4, some (ReconnectAction.retry (min (1000 * 2 ^ 3) 30000))) ∧
    ((runConnEvents 0 (List.replicate 7 ConnEvent.abnormalClose)).2.filter
      isRetry).length = min 7 5 ∧
    ((runConnEvents 0 (List.replicate 7 ConnEvent.abnormalClose)).2.filter
      isMock).length = 7 - 5 :=
  ⟨reconnect_policy_spec.1 7, reconnect_policy_spec.2.1 3 (by decide),
   reconnect_policy_spec.2.2.1 7, reconnect_policy_spec.2.2.2 7⟩

/-- Claim C4 evaluated against the source: `disconnect` never touches the
pending reconnect `setTimeout` of `handleReconnect`, whose id the source
discards, so unsubscribing the last subscriber of a channel with a pending
backoff timer clears the socket, the mock interval and the subscriber set
but leaves the backoff timer pending. -/
theorem disconnect_leaves_backoff_pending :
    (∀ s k, (disconnectKey k s).pendingBackoff = s.pendingBackoff) ∧
    (unsubscribeHandle 3 1 (scheduleBackoff 3 ⟨[], [3], [], [(3, [1])]⟩)).pendingBackoff = [3] ∧
    (unsubscribeHandle 3 1 (scheduleBackoff 3 ⟨[], [3], [], [(3, [1])]⟩)).intervalKeys = [] ∧
    subsOf (unsubscribeHandle 3 1 (scheduleBackoff 3 ⟨[], [3], [], [(3, [1])]⟩)) 3 = [] :=
  ⟨fun _ _ => rfl, by decide, by decide, by decide⟩

/-- Witness for C9 at concrete snapshots: the empty book has imbalance 0,
and a book with bid volume 3 and ask volume 1 has imbalance one half, inside
the bounds. -/
theorem calculateImbalance_spec_witness :
    calculateImbalance ⟨[], [], "s", "v", 0⟩ = 0 ∧
    calculateImbalance ⟨[mkLevel 100 3], [mkLevel 101 1], "s", "v", 0⟩ =
      (totalBidVolume ⟨[mkLevel 100 3], [mkLevel 101 1], "s", "v", 0⟩ -
        totalAskVolume ⟨[mkLevel 100 3], [mkLevel 101 1], "s", "v", 0⟩) /
      (totalBidVolume ⟨[mkLevel 100 3], [mkLevel 101 1], "s", "v", 0⟩ +
        totalAskVolume ⟨[mkLevel 100 3], [mkLevel 101 1], "s", "v", 0⟩) ∧
    -1 ≤ calculateImbalance ⟨[mkLevel 100 3], [mkLevel 101 1], "s", "v", 0⟩ ∧
    calculateImbalance ⟨[mkLevel 100 3], [mkLevel 101 1], "s", "v", 0⟩ ≤ 1 := by
  refine ⟨(calculateImbalance_spec _).1 (by norm_num [totalBidVolume, totalAskVolume]),
    (calculateImbalance_spec _).2.1 (by norm_num [totalBidVolume, totalAskVolume, mkLevel]),
    (calculateImbalance_spec _).2.2 (by norm_num [mkLevel]) (by norm_num [mkLevel])⟩


/-- Modelled from the spec: one step of the left-to-right greedy pass with
flushed zones and the running zone as accumulator: the running zone is
merged with the next zone exactly when both have the same side and the
relative price distance is at most 0.001, and is otherwise flushed
unchanged. -/
def specMergeStep (acc : List PressureZone × PressureZone) (next : PressureZone) :
    List PressureZone × PressureZone :=
  if acc.2.type = next.type ∧ |next.price - acc.2.price| / acc.2.price ≤ 1 / 1000 then
    (acc.1,
     ⟨(acc.2.price * acc.2.volume + next.price * next.volume) / (acc.2.volume + next.volume),
      max acc.2.intensity next.intensity, acc.2.type, acc.2.volume + next.volume⟩)
  else (acc.1 ++ [acc.2], next)

/-- Modelled from the spec: sort the zones by price ascending, then fold the
greedy pass over the remaining zones and flush the final running zone. -/
def mergeNearbySpec (zones : List PressureZone) : List PressureZone :=
  match List.insertionSort zonePriceLE zones with
  | [] => []
  | z :: rest =>
    let result := rest.foldl specMergeStep ([], z)
    result.1 ++ [result.2]

/-- Accumulator form of the merge scan: prepending the flushed zones to
`mergePass` agrees with the left fold of the greedy step. -/
theorem mergePass_eq_foldl : ∀ (t : List PressureZone) (c : PressureZone)
    (acc : List PressureZone),
    acc ++ mergePass c t =
      (t.foldl specMergeStep (acc, c)).1 ++ [(t.foldl specMergeStep (acc, c)).2] := by
  intro t
  induction t with
  | nil => intro c acc; simp [mergePass]
  | cons n t ih =>
    intro c acc
    by_cases h : mergeCond c n
    · rw [mergePass, if_pos h, List.foldl_cons,
        show specMergeStep (acc, c) n = (acc, mergeZone c n) from by
          simp only [specMergeStep, mergeCond] at h ⊢
          rw [if_pos ⟨h.2, h.1⟩]
          rfl]
      exact ih (mergeZone c n) acc
    · rw [mergePass, if_neg h, List.foldl_cons,
        show specMergeStep (acc, c) n = (acc ++ [c], n) from by
          simp only [specMergeStep, mergeCond] at h ⊢
          rw [if_neg (fun hh => h ⟨hh.2, hh.1⟩)]]
      rw [← ih n (acc ++ [c])]
      simp

/-- Claim C2 as amended: `mergeNearbyZones` sorts by ascending price and
performs the single left-to-right greedy pass with the claimed merge rule
and flushing, here stated as agreement with the pass written as a fold; a
chain of consecutively-near same-side zones does not in general collapse
into one zone, because nearness is measured against the running merged
zone. -/
theorem mergeNearbyZones_spec (zones : List PressureZone) :
    mergeNearbyZones zones = mergeNearbySpec zones := by
  by_cases h : zones.length ≤ 1
  · rcases zones with _ | ⟨z, _ | ⟨w, t⟩⟩
    · rfl
    · rfl
    · simp at h
  · rw [mergeNearbyZones, if_neg h, mergeNearbySpec]
    cases hs : List.insertionSort zonePriceLE zones with
    | nil => rfl
    | cons z rest =>
      have := mergePass_eq_foldl rest z []
      simpa using this

/-- Zones forming a pairwise-near same-side chain whose merged running zone
drifts out of range of the last zone. -/
def chainZones : List PressureZone :=
  [⟨100, 1 / 2, ZoneType.support, 1000000⟩, ⟨1001 / 10, 1 / 2, ZoneType.support, 1⟩,
   ⟨1002 / 10, 1 / 2, ZoneType.support, 1⟩]

/-- Counterexample to the final clause of C2 as stated: the three zones of
`chainZones` are sorted by price, all Support, and each consecutive pair is
within relative distance 0.001, yet the greedy pass returns two zones, not
one: after absorbing the second zone the heavy running zone sits near price
100 and the third zone is no longer within range. -/
theorem mergeNearbyZones_spec_counterexample :
    mergeCond ⟨100, 1 / 2, ZoneType.support, 1000000⟩ ⟨1001 / 10, 1 / 2, ZoneType.support, 1⟩ ∧
    mergeCond ⟨1001 / 10, 1 / 2, ZoneType.support, 1⟩ ⟨1002 / 10, 1 / 2, ZoneType.support, 1⟩ ∧
    (mergeNearbyZones chainZones).length = 2 := by
  refine ⟨⟨by norm_num [abs_of_nonneg], rfl⟩, ⟨by norm_num [abs_of_nonneg], rfl⟩, ?_⟩
  norm_num [chainZones, mergeNearbyZones, mergePass, mergeCond, mergeZone, zonePriceLE,
    List.insertionSort, List.orderedInsert, abs_of_nonneg, abs_of_nonpos]


/-- Positivity of the fields of a zone that enter the merge arithmetic. -/
def zonePosVol (z : PressureZone) : Prop := 0 < z.price ∧ 0 < z.volume

/-- Merging two zones with positive price and volume yields positive price
and volume. -/
theorem mergeZone_posVol {a b : PressureZone} (ha : zonePosVol a) (hb : zonePosVol b) :
    zonePosVol (mergeZone a b) := by
  obtain ⟨hap, hav⟩ := ha
  obtain ⟨hbp, hbv⟩ := hb
  have hv : 0 < a.volume + b.volume := by linarith
  constructor
  · show 0 < (a.price * a.volume + b.price * b.volume) / (a.volume + b.volume)
    exact div_pos (by nlinarith) hv
  · show 0 < a.volume + b.volume
    exact hv

/-- The volume-weighted merged price lies between the two merged prices when
volumes are positive. -/
theorem mergeZone_price_between {a b : PressureZone} (ha : zonePosVol a) (hb : zonePosVol b)
    (hab : a.price ≤ b.price) :
    a.price ≤ (mergeZone a b).price ∧ (mergeZone a b).price ≤ b.price := by
  have hv : 0 < a.volume + b.volume := by
    have := ha.2
    have := hb.2
    linarith
  constructor
  · show a.price ≤ (a.price * a.volume + b.price * b.volume) / (a.volume + b.volume)
    rw [le_div_iff₀ hv]
    nlinarith [hb.2]
  · show (a.price * a.volume + b.price * b.volume) / (a.volume + b.volume) ≤ b.price
    rw [div_le_iff₀ hv]
    nlinarith [ha.2]

/-- Structure of one merge scan over a price-sorted list of zones with
positive prices and volumes: the output zones are positive, still sorted by
price, no two consecutive output zones satisfy the merge condition, and the
output starts with a zone of the same side as, and price at least, the
running zone. -/
theorem mergePass_invariant : ∀ (t : List PressureZone) (c : PressureZone),
    zonePosVol c → (∀ z ∈ t, zonePosVol z) → List.Sorted zonePriceLE (c :: t) →
    (∀ z ∈ mergePass c t, zonePosVol z) ∧
    List.Sorted zonePriceLE (mergePass c t) ∧
    List.Chain' (fun a b => ¬ mergeCond a b) (mergePass c t) ∧
    ∃ hd rest, mergePass c t = hd :: rest ∧ hd.type = c.type ∧ c.price ≤ hd.price := by
  intro t
  induction t with
  | nil =>
    intro c hc _ _
    exact ⟨by simpa [mergePass] using hc, by simp [mergePass], by simp [mergePass],
      c, [], by simp [mergePass], rfl, le_refl _⟩
  | cons n t ih =>
    intro c hc ht hsort
    have hn : zonePosVol n := ht n (List.mem_cons_self n t)
    have ht2 : ∀ z ∈ t, zonePosVol z := fun z hz => ht z (List.mem_cons_of_mem _ hz)
    have hcn : c.price ≤ n.price := (List.sorted_cons.mp hsort).1 n (List.mem_cons_self n t)
    have hsort2 : List.Sorted zonePriceLE (n :: t) := (List.sorted_cons.mp hsort).2
    by_cases h : mergeCond c n
    · have hstep : mergePass c (n :: t) = mergePass (mergeZone c n) t := by
        simp only [mergePass]
        rw [if_pos h]
      have hm : zonePosVol (mergeZone c n) := mergeZone_posVol hc hn
      have hbet := mergeZone_price_between hc hn hcn
      have hsort3 : List.Sorted zonePriceLE (mergeZone c n :: t) := by
        rw [List.sorted_cons]
        exact ⟨fun z hz => le_trans hbet.2 ((List.sorted_cons.mp hsort2).1 z hz),
          (List.sorted_cons.mp hsort2).2⟩
      obtain ⟨hpos, hsorted, hchain, hd, rest, heq, hty, hple⟩ := ih (mergeZone c n) hm ht2 hsort3
      rw [hstep]
      refine ⟨hpos, hsorted, hchain, hd, rest, heq, ?_, le_trans hbet.1 hple⟩
      rw [hty]
      rfl
    · have hstep : mergePass c (n :: t) = c :: mergePass n t := by
        simp only [mergePass]
        rw [if_neg h]
      obtain ⟨hpos, hsorted, hchain, hd, rest, heq, hty, hple⟩ := ih n hn ht2 hsort2
      have hsortout : List.Sorted zonePriceLE (c :: mergePass n t) := by
        rw [List.sorted_cons]
        refine ⟨fun z hz => ?_, hsorted⟩
        rw [heq] at hz
        rcases List.mem_cons.mp hz with rfl | hz2
        · exact le_trans hcn hple
        · have hsc : List.Sorted zonePriceLE (hd :: rest) := heq ▸ hsorted
          exact le_trans (le_trans hcn hple) ((List.sorted_cons.mp hsc).1 z hz2)
      have hchainout : List.Chain' (fun a b => ¬ mergeCond a b) (c :: mergePass n t) := by
        rw [heq, List.chain'_cons]
        refine ⟨?_, heq ▸ hchain⟩
        intro hcond
        apply h
        have hcp : 0 < c.price := hc.1
        have hnhd : n.price ≤ hd.price := hple
        have habs1 : |n.price - c.price| = n.price - c.price := abs_of_nonneg (by linarith)
        have habs2 : |hd.price - c.price| = hd.price - c.price := abs_of_nonneg (by linarith)
        have hd1 : |hd.price - c.price| / c.price ≤ 1 / 1000 := hcond.1
        have hd2 : c.type = hd.type := hcond.2
        rw [habs2] at hd1
        refine ⟨?_, hd2.trans hty⟩
        rw [habs1]
        calc (n.price - c.price) / c.price
            ≤ (hd.price - c.price) / c.price :=
              (div_le_div_iff_of_pos_right hcp).mpr (by linarith)
          _ ≤ 1 / 1000 := hd1
      rw [hstep]
      refine ⟨?_, hsortout, hchainout, c, mergePass n t, rfl, rfl, le_refl _⟩
      intro z hz
      rcases List.mem_cons.mp hz with rfl | hz2
      · exact hc
      · exact hpos z hz2


/-- A merge scan over a list in which no two consecutive zones satisfy the
merge condition flushes every zone unchanged. -/
theorem mergePass_of_chain : ∀ (t : List PressureZone) (c : PressureZone),
    List.Chain' (fun a b => ¬ mergeCond a b) (c :: t) → mergePass c t = c :: t := by
  intro t
  induction t with
  | nil => intro c _; rfl
  | cons n t ih =>
    intro c hchain
    rw [List.chain'_cons] at hchain
    simp only [mergePass]
    rw [if_neg hchain.1, ih n hchain.2]

/-- Claim C5 as amended: `mergeNearbyZones` is idempotent on every list of
zones whose prices and volumes are positive. -/
theorem mergeNearbyZones_idempotent (zones : List PressureZone)
    (hz : ∀ z ∈ zones, 0 < z.price ∧ 0 < z.volume) :
    mergeNearbyZones (mergeNearbyZones zones) = mergeNearbyZones zones := by
  by_cases h : zones.length ≤ 1
  · have hfix : mergeNearbyZones zones = zones := by
      rw [mergeNearbyZones, if_pos h]
    rw [hfix, hfix]
  · have hsort := List.sorted_insertionSort zonePriceLE zones
    cases hs : List.insertionSort zonePriceLE zones with
    | nil =>
      have hlen := (List.perm_insertionSort zonePriceLE zones).length_eq
      rw [hs] at hlen
      simp at hlen
      omega
    | cons z rest =>
      have hmem : ∀ x ∈ z :: rest, zonePosVol x := by
        intro x hx
        exact hz x (((List.perm_insertionSort zonePriceLE zones).mem_iff).mp (hs ▸ hx))
      have hsorted : List.Sorted zonePriceLE (z :: rest) := hs ▸ hsort
      obtain ⟨hpos, hsorted2, hchain, hd, rest2, heq, -, -⟩ :=
        mergePass_invariant rest z (hmem z (List.mem_cons_self z rest))
          (fun x hx => hmem x (List.mem_cons_of_mem _ hx)) hsorted
      have hinner : mergeNearbyZones zones = mergePass z rest := by
        rw [mergeNearbyZones, if_neg h, hs]
      rw [hinner]
      by_cases h2 : (mergePass z rest).length ≤ 1
      · rw [mergeNearbyZones, if_pos h2]
      · rw [mergeNearbyZones, if_neg h2, hsorted2.insertionSort_eq, heq]
        exact mergePass_of_chain rest2 hd (heq ▸ hchain)

/-- Zones with a negative volume on which the merge arithmetic produces a
merged price outside the interval of its inputs. -/
def negVolZones : List PressureZone :=
  [⟨100, 1 / 2, ZoneType.support, 5⟩, ⟨101, 1 / 2, ZoneType.support, 100⟩,
   ⟨10105 / 100, 1 / 2, ZoneType.support, -99⟩]

/-- Counterexample to C5 as stated over arbitrary zone lists: on
`negVolZones` one pass merges the zones at 101 and 101.05, whose volumes 100
and -99 produce a merged zone at price 96.05 below the flushed zone at 100,
so the second pass re-sorts the output and returns it in a different
order. -/
theorem mergeNearbyZones_idempotent_counterexample :
    mergeNearbyZones (mergeNearbyZones negVolZones) ≠ mergeNearbyZones negVolZones := by
  have h1 : mergeNearbyZones negVolZones =
      [⟨100, 1 / 2, ZoneType.support, 5⟩, ⟨1921 / 20, 1 / 2, ZoneType.support, 1⟩] := by
    norm_num [negVolZones, mergeNearbyZones, mergePass, mergeCond, mergeZone, zonePriceLE,
      List.insertionSort, List.orderedInsert, abs_of_nonneg, abs_of_nonpos]
  rw [h1]
  norm_num [mergeNearbyZones, mergePass, mergeCond, mergeZone, zonePriceLE,
    List.insertionSort, List.orderedInsert, abs_of_nonneg, abs_of_nonpos,
    PressureZone.mk.injEq]

/-- Witness for the amended C5: the two-zone merge scenario of the spec has
positive prices and volumes, and applying `mergeNearbyZones` twice to it
equals applying it once. -/
theorem mergeNearbyZones_idempotent_witness :
    (∀ z ∈ [(⟨100, 2 / 5, ZoneType.support, 3⟩ : PressureZone),
        ⟨10005 / 100, 3 / 5, ZoneType.support, 7⟩], 0 < z.price ∧ 0 < z.volume) ∧
    mergeNearbyZones (mergeNearbyZones
        [(⟨100, 2 / 5, ZoneType.support, 3⟩ : PressureZone),
         ⟨10005 / 100, 3 / 5, ZoneType.support, 7⟩]) =
      mergeNearbyZones
        [(⟨100, 2 / 5, ZoneType.support, 3⟩ : PressureZone),
         ⟨10005 / 100, 3 / 5, ZoneType.support, 7⟩] := by
  have hpos : ∀ z ∈ [(⟨100, 2 / 5, ZoneType.support, 3⟩ : PressureZone),
      ⟨10005 / 100, 3 / 5, ZoneType.support, 7⟩], 0 < z.price ∧ 0 < z.volume := by
    intro z hz
    rcases List.mem_cons.mp hz with rfl | hz2
    · constructor <;> norm_num
    rcases List.mem_cons.mp hz2 with rfl | hz3
    · constructor <;> norm_num
    · exact absurd hz3 (List.not_mem_nil z)
  exact ⟨hpos, mergeNearbyZones_idempotent _ hpos⟩


/-- A property of zones closed under merging propagates through the merge
scan. -/
theorem mergePass_mem_pres (P : PressureZone → Prop)
    (hP : ∀ a b, P a → P b → P (mergeZone a b)) :
    ∀ (t : List PressureZone) (c : PressureZone), P c → (∀ z ∈ t, P z) →
    ∀ z ∈ mergePass c t, P z := by
  intro t
  induction t with
  | nil =>
    intro c hc _ z hz
    simp only [mergePass, List.mem_singleton] at hz
    subst hz
    exact hc
  | cons n t ih =>
    intro c hc ht z hz
    by_cases h : mergeCond c n
    · rw [show mergePass c (n :: t) = mergePass (mergeZone c n) t from by
        simp only [mergePass]; rw [if_pos h]] at hz
      exact ih (mergeZone c n) (hP c n hc (ht n (List.mem_cons_self n t)))
        (fun w hw => ht w (List.mem_cons_of_mem _ hw)) z hz
    · rw [show mergePass c (n :: t) = c :: mergePass n t from by
        simp only [mergePass]; rw [if_neg h]] at hz
      rcases List.mem_cons.mp hz with rfl | hz2
      · exact hc
      · exact ih n (ht n (List.mem_cons_self n t))
          (fun w hw => ht w (List.mem_cons_of_mem _ hw)) z hz2

/-- A property of zones closed under merging propagates through
`mergeNearbyZones`. -/
theorem mergeNearbyZones_mem_pres (P : PressureZone → Prop)
    (hP : ∀ a b, P a → P b → P (mergeZone a b)) (zones : List PressureZone)
    (hz : ∀ z ∈ zones, P z) :
    ∀ z ∈ mergeNearbyZones zones, P z := by
  intro z hmem
  by_cases h : zones.length ≤ 1
  · rw [mergeNearbyZones, if_pos h] at hmem
    exact hz z hmem
  · rw [mergeNearbyZones, if_neg h] at hmem
    cases hs : List.insertionSort zonePriceLE zones with
    | nil =>
      rw [hs] at hmem
      cases hmem
    | cons c rest =>
      rw [hs] at hmem
      have hall : ∀ w ∈ c :: rest, P w := by
        intro w hw
        exact hz w (((List.perm_insertionSort zonePriceLE zones).mem_iff).mp (hs ▸ hw))
      exact mergePass_mem_pres P hP rest c (hall c (List.mem_cons_self c rest))
        (fun w hw => hall w (List.mem_cons_of_mem _ hw)) z hmem

/-- Every zone returned by `findVolumeSpikes` has intensity between 0.3 and
1: kept candidates are clamped and filtered, and merging takes the maximal
intensity. -/
theorem findVolumeSpikes_intensity_bounds (levels : List OrderBookLevel) (ty : ZoneType) :
    ∀ z ∈ findVolumeSpikes levels ty, 3 / 10 ≤ z.intensity ∧ z.intensity ≤ 1 := by
  intro z hz
  by_cases h : levels.length < 3
  · rw [findVolumeSpikes, if_pos h] at hz
    cases hz
  · rw [findVolumeSpikes, if_neg h] at hz
    refine mergeNearbyZones_mem_pres
      (fun w => 3 / 10 ≤ w.intensity ∧ w.intensity ≤ 1) ?_ _ ?_ z hz
    · intro a b ha hb
      exact ⟨le_trans ha.1 (le_max_left _ _), max_le ha.2 hb.2⟩
    · intro w hw
      obtain ⟨i, hi, hfi⟩ := List.mem_filterMap.mp hw
      cases hp : levels.get? (i - 1) with
      | none => rw [hp] at hfi; cases hfi
      | some prev =>
        cases hc : levels.get? i with
        | none => rw [hp, hc] at hfi; cases hfi
        | some current =>
          cases hx : levels.get? (i + 1) with
          | none => rw [hp, hc, hx] at hfi; cases hfi
          | some next =>
            rw [hp, hc, hx] at hfi
            simp only at hfi
            split_ifs at hfi with hA hB
            obtain rfl : (⟨current.price,
                min (current.quantity /
                  ((levels.map OrderBookLevel.quantity).sum / (levels.length : ℚ) * 3)) 1,
                ty, current.quantity⟩ : PressureZone) = w := Option.some.inj hfi
            exact ⟨hB, min_le_right _ _⟩

/-- Claim C10: every zone returned by `analyzePressureZones` has intensity
in the closed interval from 0.3 to 1. -/
theorem analyzePressureZones_intensity (data : List OrderBookData) :
    ∀ z ∈ analyzePressureZones data, 3 / 10 ≤ z.intensity ∧ z.intensity ≤ 1 := by
  intro z hz
  by_cases h : data.length = 0
  · rw [analyzePressureZones, if_pos h] at hz
    cases hz
  · rw [analyzePressureZones, if_neg h] at hz
    have hz2 : z ∈ List.insertionSort zoneIntensityGE
        (findVolumeSpikes (combineOrderBookLevels data).1 ZoneType.support ++
         findVolumeSpikes (combineOrderBookLevels data).2 ZoneType.resistance) := hz
    have hz3 := ((List.perm_insertionSort zoneIntensityGE _).mem_iff).mp hz2
    rcases List.mem_append.mp hz3 with h4 | h4
    · exact findVolumeSpikes_intensity_bounds _ _ z h4
    · exact findVolumeSpikes_intensity_bounds _ _ z h4

/-- Witness for C10: the spec scenario book produces the support zone at
price 99 with intensity five sevenths, which the claim bounds. -/
theorem analyzePressureZones_intensity_witness :
    (⟨99, 5 / 7, ZoneType.support, 5⟩ : PressureZone) ∈
      analyzePressureZones [⟨[mkLevel 100 1, mkLevel 99 5, mkLevel 98 1], [], "s", "v", 0⟩] ∧
    (3 / 10 ≤ (5 : ℚ) / 7 ∧ (5 : ℚ) / 7 ≤ 1) := by
  have hcomb : combineOrderBookLevels
      [⟨[mkLevel 100 1, mkLevel 99 5, mkLevel 98 1], [], "s", "v", 0⟩] =
      ([mkLevel 100 1, mkLevel 99 5, mkLevel 98 1], []) := by
    norm_num [combineOrderBookLevels, accumulateSide, upsertQty, entryToLevel, jsRound,
      mkLevel, List.insertionSort, List.orderedInsert]
  have hspike : findVolumeSpikes [mkLevel 100 1, mkLevel 99 5, mkLevel 98 1]
      ZoneType.support = [⟨99, 5 / 7, ZoneType.support, 5⟩] := by
    norm_num [findVolumeSpikes, mergeNearbyZones, mergePass, mkLevel, List.range',
      List.get?, min_def, List.filterMap_cons]
  have hmem : (⟨99, 5 / 7, ZoneType.support, 5⟩ : PressureZone) ∈
      analyzePressureZones [⟨[mkLevel 100 1, mkLevel 99 5, mkLevel 98 1], [], "s", "v", 0⟩] := by
    simp only [analyzePressureZones, hcomb, hspike]
    norm_num [findVolumeSpikes, List.insertionSort, List.orderedInsert]
  exact ⟨hmem, analyzePressureZones_intensity _ _ hmem⟩


/-- Strictly descending prices along a level list. -/
def pricesStrictDesc (l : List OrderBookLevel) : Prop :=
  l.Pairwise (fun a b => b.price < a.price)

/-- Strictly ascending prices along a level list. -/
def pricesStrictAsc (l : List OrderBookLevel) : Prop :=
  l.Pairwise (fun a b => a.price < b.price)

/-- Modelled from the spec: the prices of the valid pairs of one raw payload
side, in payload order; a pair is valid when both components are numeric
and positive. -/
def validPrices (es : List (Option ℚ × Option ℚ)) : List ℚ :=
  es.filterMap (fun e =>
    match e with
    | (some p, some q) => if p ≤ 0 ∨ q ≤ 0 then none else some p
    | _ => none)

/-- The parsed levels of one side carry exactly the valid payload prices in
payload order. -/
theorem parseSide_map_price : ∀ (es : List (Option ℚ × Option ℚ)) (acc : ℚ),
    (parseSide acc es).map OrderBookLevel.price = validPrices es := by
  intro es
  induction es with
  | nil => intro acc; rfl
  | cons e t ih =>
    intro acc
    obtain ⟨pOpt, qOpt⟩ := e
    cases pOpt with
    | none => simp only [parseSide, validPrices, List.filterMap_cons] at ih ⊢; exact ih acc
    | some p =>
      cases qOpt with
      | none => simp only [parseSide, validPrices, List.filterMap_cons] at ih ⊢; exact ih acc
      | some q =>
        by_cases hpq : p ≤ 0 ∨ q ≤ 0
        · simp only [parseSide, validPrices, List.filterMap_cons, if_pos hpq] at ih ⊢
          exact ih acc
        · simp only [parseSide, validPrices, List.filterMap_cons, if_neg hpq,
            List.map_cons] at ih ⊢
          exact congrArg (p :: ·) (ih (acc + q))

/-- A successfully parsed snapshot consists of the two parsed sides. -/
theorem parseBinanceData_sides (raw : RawDepth) (sym ven : String) (ob : OrderBookData)
    (h : parseBinanceData raw sym ven = some ob) :
    ob.bids = parseSide 0 raw.bids ∧ ob.asks = parseSide 0 raw.asks := by
  simp only [parseBinanceData] at h
  split_ifs at h
  obtain rfl := Option.some.inj h
  exact ⟨rfl, rfl⟩

/-- Claim C6 as amended: every synthetic snapshot has its bids sorted
descending and its asks ascending by price, though not necessarily
strictly, since two generated prices can round to the same value; and a
parsed snapshot preserves the payload order of the valid pairs, so its
sides are strictly sorted exactly when the valid payload prices are. -/
theorem snapshot_ordering_spec (isBTC : Bool) (rand expd : ℕ → ℚ) (sym ven : String)
    (raw : RawDepth) (sym2 ven2 : String) (ob : OrderBookData)
    (h : parseBinanceData raw sym2 ven2 = some ob) :
    List.Sorted levelPriceGE (generateMockOrderBook isBTC rand expd sym ven).bids ∧
    List.Sorted levelPriceLE (generateMockOrderBook isBTC rand expd sym ven).asks ∧
    (pricesStrictDesc ob.bids ↔ (validPrices raw.bids).Pairwise (fun a b => b < a)) ∧
    (pricesStrictAsc ob.asks ↔ (validPrices raw.asks).Pairwise (fun a b => a < b)) := by
  obtain ⟨hb, ha⟩ := parseBinanceData_sides raw sym2 ven2 ob h
  refine ⟨?_, ?_, ?_, ?_⟩
  · simp only [generateMockOrderBook]
    exact List.sorted_insertionSort levelPriceGE _
  · simp only [generateMockOrderBook]
    exact List.sorted_insertionSort levelPriceLE _
  · rw [pricesStrictDesc, hb, ← parseSide_map_price raw.bids 0, List.pairwise_map]
  · rw [pricesStrictAsc, ha, ← parseSide_map_price raw.asks 0, List.pairwise_map]

/-- Raw payload whose bid side is valid but ascending. -/
def unsortedRaw : RawDepth := ⟨[(some 1, some 1), (some 2, some 1)], []⟩

/-- Draw stream making the mock generator produce two equal bid prices:
all draws are 0 except draw 5, the bid price jitter of level 1, which is
two thirds; every draw lies in the interval from 0 inclusive to 1
exclusive, as `Math.random()` values do. -/
def mockTieRand : ℕ → ℚ := fun n => if n = 5 then 2 / 3 else 0

set_option maxHeartbeats 2000000 in
/-- Counterexample to C6 as stated: `parseBinanceData` performs no sorting,
so the valid but ascending payload `unsortedRaw` parses to a snapshot whose
bids are not strictly descending; and the mock generator under the
admissible draw stream `mockTieRand` produces the bid price 49995 twice
(at levels 1 and 2), so its bids are sorted but not strictly. -/
theorem snapshot_ordering_counterexample :
    parseBinanceData unsortedRaw "s" "v" =
      some ⟨[⟨1, 1, 1, 0⟩, ⟨2, 1, 2, 0⟩], [], "s", "v", 0⟩ ∧
    ¬ pricesStrictDesc [(⟨1, 1, 1, 0⟩ : OrderBookLevel), ⟨2, 1, 2, 0⟩] ∧
    ¬ pricesStrictDesc
      (generateMockOrderBook false mockTieRand (fun _ => 1) "ETHUSDT" "binance").bids := by
  refine ⟨?_, ?_, ?_⟩
  · norm_num [parseBinanceData, parseSide, unsortedRaw]
    refine ⟨by simp, ?_⟩
    intro hx
    exact absurd hx (by simp)
  · norm_num [pricesStrictDesc, List.pairwise_cons]
  · norm_num [generateMockOrderBook, baseDraws, mockTieRand, jsRound, withRunningTotals,
      List.range, List.range_succ, List.insertionSort, List.orderedInsert,
      pricesStrictDesc, List.pairwise_cons, min_def]

/-- Witness for the amended C6 at concrete inputs: a constant-zero draw
stream and a strictly descending valid payload, for which the parsed bids
are strictly descending. -/
theorem snapshot_ordering_spec_witness :
    List.Sorted levelPriceGE
      (generateMockOrderBook false (fun _ => 0) (fun _ => 1) "ETHUSDT" "binance").bids ∧
    List.Sorted levelPriceLE
      (generateMockOrderBook false (fun _ => 0) (fun _ => 1) "ETHUSDT" "binance").asks ∧
    (pricesStrictDesc [(⟨2, 1, 1, 0⟩ : OrderBookLevel), ⟨1, 1, 2, 0⟩] ↔
      (validPrices [(some 2, some 1), (some 1, some 1)]).Pairwise (fun a b => b < a)) ∧
    (pricesStrictAsc ([] : List OrderBookLevel) ↔
      (validPrices ([] : List (Option ℚ × Option ℚ))).Pairwise (fun a b => a < b)) := by
  have h : parseBinanceData ⟨[(some 2, some 1), (some 1, some 1)], []⟩ "s" "v" =
      some ⟨[⟨2, 1, 1, 0⟩, ⟨1, 1, 2, 0⟩], [], "s", "v", 0⟩ := by
    norm_num [parseBinanceData, parseSide]
    refine ⟨by simp, ?_⟩
    intro hx
    exact absurd hx (by simp)
  exact snapshot_ordering_spec false (fun _ => 0) (fun _ => 1) "ETHUSDT" "binance"
    ⟨[(some 2, some 1), (some 1, some 1)], []⟩ "s" "v" _ h


/-- Adding an absent element to a JavaScript `Set` appends it. -/
theorem setAdd_not_mem (cb : ℕ) : ∀ l : List ℕ, cb ∉ l → setAdd cb l = l ++ [cb] := by
  intro l
  induction l with
  | nil => intro _; rfl
  | cons c t ih =>
    intro h
    have hne : c ≠ cb := fun hc => h (hc ▸ List.mem_cons_self c t)
    simp only [setAdd, if_neg hne, List.cons_append]
    exact congrArg (c :: ·) (ih (fun hm => h (List.mem_cons_of_mem c hm)))

/-- Well-formedness of a trace: the callbacks of the subscribe events of
each key are pairwise distinct, and every handle invocation is preceded by
its issuing subscribe call. -/
def regWellFormed (trace : List RegEvent) : Prop :=
  (∀ k, (trace.filterMap (subscribedCb k)).Nodup) ∧
  (∀ pre k cb post, trace = pre ++ RegEvent.unsubInvoke k cb :: post →
    RegEvent.subscribe k cb ∈ pre)

/-- Well-formedness restricts to prefixes obtained by dropping the last
event. -/
theorem regWellFormed_of_append (t : List RegEvent) (e : RegEvent)
    (h : regWellFormed (t ++ [e])) : regWellFormed t := by
  constructor
  · intro k
    have := h.1 k
    rw [List.filterMap_append] at this
    exact (List.nodup_append.mp this).1
  · intro pre k cb post heq
    refine h.2 pre k cb (post ++ [e]) ?_
    rw [heq]
    simp

/-- Appending one event to a trace steps the registry state once. -/
theorem runRegistry_append (t : List RegEvent) (e : RegEvent) :
    runRegistry (t ++ [e]) = regStep (runRegistry t) e := by
  simp [runRegistry, List.foldl_append]

/-- Subscribe events append their callback to the per-key scan. -/
theorem filterMap_sub_append (t : List RegEvent) (k k2 cb2 : ℕ) :
    (t ++ [RegEvent.subscribe k2 cb2]).filterMap (subscribedCb k)
      = t.filterMap (subscribedCb k) ++ (if k2 = k then [cb2] else []) := by
  rw [List.filterMap_append]
  by_cases h : k2 = k <;> simp [subscribedCb, h]

/-- Unsubscribe events leave the per-key scan unchanged. -/
theorem filterMap_unsub_append (t : List RegEvent) (k k2 cb2 : ℕ) :
    (t ++ [RegEvent.unsubInvoke k2 cb2]).filterMap (subscribedCb k)
      = t.filterMap (subscribedCb k) := by
  rw [List.filterMap_append]
  simp [subscribedCb]

/-- Claim C7 as amended: over any well-formed trace of subscribe calls and
handle invocations, the element list the service holds for a key is exactly
the list of callbacks subscribed for the key whose handle was not invoked,
so the subscriber count equals the number of issued and not yet invoked
unsubscribe handles (and, being a list length, is never negative). -/
theorem subscriberCount_spec : ∀ trace : List RegEvent, regWellFormed trace →
    ∀ k, runRegistry trace k = outstandingHandles trace k := by
  intro trace
  induction trace using List.reverseRecOn with
  | nil => intro _ k; rfl
  | append_singleton t e ih =>
    intro hwf k
    have hwt := regWellFormed_of_append t e hwf
    rw [runRegistry_append]
    cases e with
    | subscribe k2 cb2 =>
      have hout : outstandingHandles (t ++ [RegEvent.subscribe k2 cb2]) k
          = (t.filterMap (subscribedCb k) ++ (if k2 = k then [cb2] else [])).filter
              (fun cb => ¬ RegEvent.unsubInvoke k cb ∈ t) := by
        rw [outstandingHandles, filterMap_sub_append]
        refine List.filter_congr ?_
        intro cb _
        exact decide_eq_decide.mpr (by simp)
      by_cases hk : k = k2
      · subst hk
        have hnodup := hwf.1 k
        rw [filterMap_sub_append, if_pos rfl] at hnodup
        have hfresh : cb2 ∉ t.filterMap (subscribedCb k) := by
          intro hmem
          exact (List.nodup_append.mp hnodup).2.2 hmem (List.mem_singleton.mpr rfl)
        have hnoun : RegEvent.unsubInvoke k cb2 ∉ t := by
          intro hmem
          obtain ⟨pre, post, rfl⟩ := List.append_of_mem hmem
          have hsub : RegEvent.subscribe k cb2 ∈ pre := by
            refine hwf.2 pre k cb2 (post ++ [RegEvent.subscribe k cb2]) ?_
            simp
          refine hfresh (List.mem_filterMap.mpr ⟨RegEvent.subscribe k cb2, ?_, ?_⟩)
          · exact List.mem_append.mpr (Or.inl hsub)
          · simp [subscribedCb]
        rw [hout, if_pos rfl, List.filter_append]
        have hcb2 : List.filter (fun cb => ¬ RegEvent.unsubInvoke k cb ∈ t : ℕ → Bool)
            [cb2] = [cb2] := by
          simp [hnoun]
        rw [hcb2]
        have hstep : regStep (runRegistry t) (RegEvent.subscribe k cb2) k
            = setAdd cb2 (runRegistry t k) := by
          simp [regStep]
        rw [hstep, ih hwt k]
        refine setAdd_not_mem cb2 _ ?_
        intro hmem
        exact hfresh (List.mem_of_mem_filter hmem)
      · have hstep : regStep (runRegistry t) (RegEvent.subscribe k2 cb2) k
            = runRegistry t k := by
          simp [regStep, hk]
        rw [hstep, ih hwt k, hout, if_neg (fun h2 => hk h2.symm), List.append_nil,
          outstandingHandles]
    | unsubInvoke k2 cb2 =>
      have hnodup : (t.filterMap (subscribedCb k)).Nodup := by
        have := hwf.1 k
        rwa [filterMap_unsub_append] at this
      by_cases hk : k = k2
      · subst hk
        have hstep : regStep (runRegistry t) (RegEvent.unsubInvoke k cb2) k
            = (runRegistry t k).erase cb2 := by
          simp [regStep]
        rw [hstep, ih hwt k]
        simp only [outstandingHandles]
        rw [filterMap_unsub_append]
        rw [(hnodup.filter _).erase_eq_filter cb2, List.filter_filter]
        refine List.filter_congr ?_
        intro cb _
        by_cases h1 : cb = cb2 <;> by_cases h2 : RegEvent.unsubInvoke k cb ∈ t <;>
          simp [h1, h2, List.mem_append]
      · have hstep : regStep (runRegistry t) (RegEvent.unsubInvoke k2 cb2) k
            = runRegistry t k := by
          simp [regStep, hk]
        rw [hstep, ih hwt k]
        simp only [outstandingHandles]
        rw [filterMap_unsub_append]
        refine List.filter_congr ?_
        intro cb _
        exact decide_eq_decide.mpr
          (by simp [List.mem_append, RegEvent.unsubInvoke.injEq, hk])


/-- Test for a handle invocation event. -/
def isUnsubEvent : RegEvent → Bool
  | RegEvent.unsubInvoke _ _ => true
  | _ => false

/-- Counterexample to C7 as stated: subscribing the same callback twice for
one key issues two unsubscribe handles, none invoked, while the JavaScript
`Set` of subscribers deduplicates and holds one element, so the count the
service holds is 1 while 2 issued handles are outstanding. -/
theorem subscriberCount_spec_counterexample :
    (runRegistry [RegEvent.subscribe 0 7, RegEvent.subscribe 0 7] 0).length = 1 ∧
    handlesIssued [RegEvent.subscribe 0 7, RegEvent.subscribe 0 7] 0 = 2 ∧
    ([RegEvent.subscribe 0 7, RegEvent.subscribe 0 7].filter isUnsubEvent).length = 0 := by
  refine ⟨?_, ?_, ?_⟩ <;> decide

/-- Witness for the amended C7: a well-formed trace subscribing two distinct
callbacks and invoking the first handle leaves the registry holding exactly
the outstanding callback. -/
theorem subscriberCount_spec_witness :
    regWellFormed [RegEvent.subscribe 0 1, RegEvent.subscribe 0 2, RegEvent.unsubInvoke 0 1] ∧
    runRegistry [RegEvent.subscribe 0 1, RegEvent.subscribe 0 2, RegEvent.unsubInvoke 0 1] 0 =
      outstandingHandles
        [RegEvent.subscribe 0 1, RegEvent.subscribe 0 2, RegEvent.unsubInvoke 0 1] 0 := by
  have hwf : regWellFormed
      [RegEvent.subscribe 0 1, RegEvent.subscribe 0 2, RegEvent.unsubInvoke 0 1] := by
    constructor
    · intro k
      by_cases hk : (0 : ℕ) = k <;>
        simp [subscribedCb, hk, List.filterMap_cons]
    · intro pre k cb post heq
      rcases pre with _ | ⟨a, _ | ⟨b, _ | ⟨c, pre⟩⟩⟩ <;> try simp_all
      obtain ⟨ha, hb2, ⟨hk, hcb⟩, hpost⟩ := heq
      subst ha
      subst hk
      subst hcb
      exact Or.inl rfl
  exact ⟨hwf, subscriberCount_spec _ hwf 0⟩

end Orderbook
